import Mathlib

/-!
# folder2print — verification of the file-arrival-to-print pipeline

A shallow embedding of `src/folder2print.py`.  Pure string manipulation
(`os.path.splitext`, `os.path.basename`, `os.path.join`, `datetime.strftime`)
is translated to Lean functions on `String`/`List Char`.  Stateful and
effectful code is embedded as follows:

* the in-memory dedup set `PDFHandler.processed_files` is a `Finset String`
  threaded through the pipeline functions;
* OS-level outcomes that the Python code observes (whether a file exists,
  whether an `open`/`read` succeeds, the two `os.path.getsize` reads of a
  readiness probe, whether `subprocess.Popen` / `ShellExecute` /
  `SetDefaultPrinter` raise, what `win32print.GetDefaultPrinter` returns)
  are supplied by explicit environment records;
* filesystem mutations performed by `handle_after_print` are emitted as
  `FsOp` values and interpreted by `applyFs` over an explicit `FsState`;
* the observable steps of `PDFHandler.process_file` are emitted as a
  `PipeEvent` trace so that ordering properties (mark-before-print, no
  dispatch after a readiness timeout) can be stated.

Path joining is modelled with a forward slash; on Windows the only
difference is the separator character, which no claim depends on.
-/

/-- Test for the two path-separator characters recognised by `ntpath`. -/
def isSep (c : Char) : Bool := c == '/' || c == '\\'

/-- The characters after the last path separator: `os.path.basename`,
implemented as a left fold that restarts on every separator. -/
def afterLastSepL (l : List Char) : List Char :=
  l.foldl (fun acc c => if isSep c then [] else acc ++ [c]) []

/-- Model of `os.path.basename`. -/
def basename (p : String) : String := String.mk (afterLastSepL p.data)

/-- Index of the last character of `l` satisfying `pred`, if any. -/
def rfindIdx (pred : Char → Bool) (l : List Char) : Option Nat :=
  ((List.range l.length).filter (fun i => pred (l.getD i ' '))).getLast?

/-- Model of `os.path.splitext`: split at the last dot of the basename, except that a
run of leading dots of the basename does not start an extension (so a file
called `.pdf` has no extension, exactly as in `genericpath._splitext`). -/
def splitext (p : String) : String × String :=
  let l := p.data
  let sepI : Int := match rfindIdx isSep l with
    | some i => Int.ofNat i
    | none => -1
  let dotI : Int := match rfindIdx (fun c => c == '.') l with
    | some i => Int.ofNat i
    | none => -1
  if sepI < dotI then
    let d := dotI.toNat
    let fstart := (sepI + 1).toNat
    if (List.range (d - fstart)).any (fun j => (l.getD (fstart + j) ' ') != '.') then
      (String.mk (l.take d), String.mk (l.drop d))
    else (p, "")
  else (p, "")

/-- Model of `os.path.splitext(p)[1]`. -/
def splitextExt (p : String) : String := (splitext p).2

/-- Model of `os.path.join` of one directory and one relative name, with the
separator modelled as a forward slash. -/
def joinPath (a b : String) : String := a ++ "/" ++ b

/-- Python's substring test `sub in s`. -/
def strContains (s sub : String) : Bool :=
  (List.range (s.data.length + 1)).any
    (fun i => ((s.data.drop i).take sub.data.length) == sub.data)

/-- Python's `str.lower()` (ASCII case folding, which is all the config
values and `fnmatch.normcase` use). -/
def lowerStr (s : String) : String := String.mk (s.data.map Char.toLower)

/-- Python's `str.endswith(post)`. -/
def endsWithStr (s post : String) : Bool :=
  post.data.length ≤ s.data.length &&
    (s.data.drop (s.data.length - post.data.length) == post.data)

/-- Python's `str.startswith(pre)` (used only to state that a path is not
inside a directory). -/
def startsWithStr (s pre : String) : Bool := s.data.take pre.data.length == pre.data

/-! ## Timestamps (`datetime.now().strftime("%Y%m%d_%H%M%S")`) -/

/-- A wall-clock instant at second resolution, the part of `datetime.now()`
that `strftime("%Y%m%d_%H%M%S")` observes. -/
structure Timestamp where
  year : Nat
  month : Nat
  day : Nat
  hour : Nat
  minute : Nat
  second : Nat
deriving DecidableEq

/-- The decimal digit character for `n % 10`-sized values. -/
def digitChar (n : Nat) : Char := Char.ofNat (48 + n)

/-- Two-digit zero-padded decimal rendering, as `strftime` does for
`%m %d %H %M %S` fields below 100. -/
def fmt2 (n : Nat) : List Char := [digitChar (n / 10 % 10), digitChar (n % 10)]

/-- Four-digit zero-padded decimal rendering, as `strftime` does for `%Y`
for years below 10000. -/
def fmt4 (n : Nat) : List Char :=
  [digitChar (n / 1000 % 10), digitChar (n / 100 % 10),
   digitChar (n / 10 % 10), digitChar (n % 10)]

/-- Model of `datetime.strftime("%Y%m%d_%H%M%S")`. -/
def strftimeYmdHMS (t : Timestamp) : String :=
  String.mk (fmt4 t.year ++ fmt2 t.month ++ fmt2 t.day ++ ['_'] ++
    fmt2 t.hour ++ fmt2 t.minute ++ fmt2 t.second)

/-- Field bounds under which the fixed-width rendering is faithful (every
`datetime.now()` value satisfies far tighter bounds). -/
def validTs (t : Timestamp) : Prop :=
  t.year < 10000 ∧ t.month < 100 ∧ t.day < 100 ∧ t.hour < 100 ∧
    t.minute < 100 ∧ t.second < 100

instance (t : Timestamp) : Decidable (validTs t) := by
  unfold validTs; infer_instance

/-! ## Configuration (the fields of `Config` consumed by the pipeline) -/

/-- The runtime configuration record built by `Config.__init__`/`load`. -/
structure Config where
  watch_folder : String
  printer_name : String
  check_interval_seconds : Int
  delete_after_print : Bool
  move_after_print : Bool
  printed_folder : String
  file_extensions : List String
  print_delay_seconds : Int
  move_delete_delay_seconds : Int
  print_method : String
  acrobat_path : String
deriving DecidableEq

/-! ## Readiness prober (`is_file_ready`) -/

/-- One iteration of the `is_file_ready` polling loop: whether the
`open`/`read(1024)` attempt succeeded, and the two `os.path.getsize` reads
taken 0.5 s apart.  The list of probes a run performs is exactly the
iterations that fit inside the timeout. -/
structure Probe where
  openOk : Bool
  size1 : Nat
  size2 : Nat
deriving DecidableEq

/-- Model of `is_file_ready`: poll until the timeout; accept as soon as one probe
opens successfully and sees two equal, non-zero size reads; return `false`
when the probes within the timeout are exhausted. -/
def is_file_ready : List Probe → Bool
  | [] => false
  | pr :: rest =>
    if pr.openOk = true ∧ pr.size1 = pr.size2 ∧ 0 < pr.size1 then true
    else is_file_ready rest

/-! ## Print dispatcher (`print_pdf_acrobat`, `print_pdf_shellexecute`) -/

/-- Printer-name resolution shared by both strategies: an empty configured
name falls back to `get_default_printer()`; a missing (`None`) or empty
default is a failure (`if not default`). -/
def resolvePrinter (printer_name : String) (dflt : Option String) : Option String :=
  if printer_name = "" then
    match dflt with
    | some x => if x = "" then none else some x
    | none => none
  else some printer_name

/-- The OS-level outcomes `print_pdf_acrobat` can observe: whether
`os.path.exists(file_path)` and `os.path.isfile(acrobat_path)` hold, what
`win32print.GetDefaultPrinter` returns (`none` models an exception), and
whether `subprocess.Popen` raises. -/
structure AcrobatEnv where
  fileExists : Bool
  acrobatIsFile : Bool
  defaultPrinter : Option String
  popenRaises : Bool
deriving DecidableEq

/-- Model of `print_pdf_acrobat`: precondition checks, printer resolution, then a
fire-and-forget `Popen` (a raise is caught by the enclosing `except` and
converted to `False`); on a successful launch the function sleeps and
returns `True`. -/
def print_pdf_acrobat (env : AcrobatEnv) (file_path printer_name acrobat_path : String) :
    Bool :=
  if env.fileExists = false then false
  else if env.acrobatIsFile = false then false
  else
    match resolvePrinter printer_name env.defaultPrinter with
    | none => false
    | some _ => if env.popenRaises then false else true

/-- The process-wide mutable resource touched by the ShellExecute strategy:
the system default printer (`none` models "no default configured /
`GetDefaultPrinter` raises"). -/
structure SysState where
  defaultPrinter : Option String
deriving DecidableEq

/-- The outcomes `print_pdf_shellexecute` can observe: whether the file
exists, and whether `SetDefaultPrinter(target)`, `ShellExecute`, and the
restoring `SetDefaultPrinter(original)` raise. -/
structure ShellEnv where
  fileExists : Bool
  setDefaultRaises : Bool
  shellExecuteRaises : Bool
  restoreRaises : Bool
deriving DecidableEq

/-- Model of the `finally` block of `print_pdf_shellexecute`: restore the original
default printer when it was truthy and differs from the target; a raise in
the restoring `SetDefaultPrinter` is swallowed by the inner
`try/except pass`. -/
def finallyRestore (env : ShellEnv) (original : Option String) (pn : String)
    (st : SysState) : SysState :=
  match original with
  | some o =>
    if o ≠ "" ∧ o ≠ pn then
      (if env.restoreRaises then st else SysState.mk (some o))
    else st
  | none => st

/-- Model of `print_pdf_shellexecute`: existence check, printer resolution, swap the
system default printer to the target, fire the `print` ShellExecute verb,
and restore the original default in the `finally` block; every raised
exception is converted to a `False` result by the enclosing `except`. -/
def print_pdf_shellexecute (env : ShellEnv) (file_path printer_name : String)
    (st : SysState) : Bool × SysState :=
  if env.fileExists = false then (false, st)
  else
    match resolvePrinter printer_name st.defaultPrinter with
    | none => (false, st)
    | some pn =>
      let original := st.defaultPrinter
      if env.setDefaultRaises then
        (false, finallyRestore env original pn st)
      else
        let st1 := SysState.mk (some pn)
        if env.shellExecuteRaises then
          (false, finallyRestore env original pn st1)
        else
          (true, finallyRestore env original pn st1)

/-! ## Post-print resolver (`PDFHandler.handle_after_print`) -/

/-- A filesystem mutation performed by the resolver. -/
inductive FsOp where
  | mkdirs (dir : String)
  | remove (p : String)
  | move (src dst : String)
deriving DecidableEq

/-- The filesystem fragment the resolver touches: the set of existing file
paths and the set of existing directories. -/
structure FsState where
  files : Finset String
  dirs : Finset String
deriving DecidableEq

/-- Interpret one `FsOp` (`os.makedirs(..., exist_ok=True)`, `os.remove`,
`shutil.move`). -/
def applyFsOp (st : FsState) : FsOp → FsState
  | FsOp.mkdirs d => FsState.mk st.files (insert d st.dirs)
  | FsOp.remove p => FsState.mk (st.files.erase p) st.dirs
  | FsOp.move src dst => FsState.mk (insert dst (st.files.erase src)) st.dirs

/-- Interpret a sequence of filesystem mutations in order. -/
def applyFs (ops : List FsOp) (st : FsState) : FsState := ops.foldl applyFsOp st

/-- The archived path built by the move branch:
`os.path.join(watch_folder, printed_folder, f"{name}_{timestamp}{ext}")`
with `name, ext = os.path.splitext(os.path.basename(file_path))`. -/
def movedPath (cfg : Config) (t : Timestamp) (p : String) : String :=
  joinPath (joinPath cfg.watch_folder cfg.printed_folder)
    ((splitext (basename p)).1 ++ "_" ++ strftimeYmdHMS t ++ (splitext (basename p)).2)

/-- Model of `PDFHandler.handle_after_print`: delete when `delete_after_print`, else
ensure the archive directory exists and move with a timestamped name when
`move_after_print`, else do nothing. -/
def handle_after_print (cfg : Config) (t : Timestamp) (p : String) : List FsOp :=
  if cfg.delete_after_print then [FsOp.remove p]
  else if cfg.move_after_print then
    [FsOp.mkdirs (joinPath cfg.watch_folder cfg.printed_folder),
     FsOp.move p (movedPath cfg t p)]
  else []

/-! ## Arrival pipeline (`PDFHandler.process_file`, `PDFHandler.on_created`) -/

/-- The observable steps of one `process_file` run, in program order. -/
inductive PipeEvent where
  | readinessCheck (ok : Bool)
  | settleDelay (secs : Int)
  | markProcessed (path : String)
  | printCall (path : String) (ok : Bool)
  | postPrintDelay (secs : Int)
  | unmarkProcessed (path : String)
  | fsOp (op : FsOp)
deriving DecidableEq

/-- The per-file environment of one run: the readiness probes the polling
loop performs, the boolean verdict of `print_pdf`, and the wall-clock time
the resolver reads. -/
structure FileEnv where
  probes : List Probe
  printSuccess : Bool
  now : Timestamp

/-- Trace prefix shared by both print outcomes: positive readiness check,
optional settle delay, dedup-set mark, then the dispatch call. -/
def preTrace (cfg : Config) (path : String) (r : Bool) : List PipeEvent :=
  PipeEvent.readinessCheck true ::
    (if 0 < cfg.print_delay_seconds then [PipeEvent.settleDelay cfg.print_delay_seconds]
     else []) ++
    [PipeEvent.markProcessed path, PipeEvent.printCall path r]

/-- The unconditional post-dispatch delay (charged on failure too). -/
def postDelayTrace (cfg : Config) : List PipeEvent :=
  if 0 < cfg.move_delete_delay_seconds then
    [PipeEvent.postPrintDelay cfg.move_delete_delay_seconds]
  else []

/-- Model of `PDFHandler.process_file`: readiness gate, settle delay, pre-emptive
dedup mark, dispatch, post-print delay, then either the resolver (success)
or eviction from the dedup set (failure).  Returns the new dedup set and
the event trace.  (The enclosing `except` clause of the Python code is not
reachable in this model: every modelled operation is total.) -/
def process_file (cfg : Config) (env : FileEnv) (s : Finset String) (path : String) :
    Finset String × List PipeEvent :=
  if is_file_ready env.probes = false then
    (s, [PipeEvent.readinessCheck false])
  else if env.printSuccess then
    (insert path s,
      preTrace cfg path true ++ postDelayTrace cfg ++
        (handle_after_print cfg env.now path).map PipeEvent.fsOp)
  else
    ((insert path s).erase path,
      preTrace cfg path false ++ postDelayTrace cfg ++ [PipeEvent.unmarkProcessed path])

/-- The extension filter of `on_created`:
`os.path.splitext(file_path)[1].lower() in [ext.lower() for ext in file_extensions]`. -/
def extRecognized (cfg : Config) (path : String) : Bool :=
  (cfg.file_extensions.map lowerStr).contains (lowerStr (splitextExt path))

/-- Model of `PDFHandler.on_created`: ignore directories, ignore unrecognised
extensions, ignore paths already marked processed, otherwise run
`process_file`. -/
def on_created (cfg : Config) (env : FileEnv) (isDir : Bool) (path : String)
    (s : Finset String) : Finset String × List PipeEvent :=
  if isDir then (s, [])
  else if extRecognized cfg path = false then (s, [])
  else if path ∈ s then (s, [])
  else process_file cfg env s path

/-! ## Startup scan (`process_existing_files`) -/

/-- One directory entry yielded by `watch_path.glob`: the entry name
(relative to the watch folder, which the non-recursive glob lists directly)
and the `Path.is_file()` verdict. -/
structure FileEntry where
  name : String
  isFile : Bool
deriving DecidableEq

/-- The full path string `str(file_path)` of a scanned entry. -/
def fullPath (cfg : Config) (name : String) : String := joinPath cfg.watch_folder name

/-- Whether `watch_path.glob(f"*{ext}")` yields a directory entry.
Modelled for extension strings free of wildcard metacharacters, on Windows
(where `fnmatch` normcases both sides): the name matches iff it
case-insensitively ends with `ext`. -/
def globMatch (ext nm : String) : Bool := endsWithStr (lowerStr nm) (lowerStr ext)

/-- The per-entry condition of the scan's inner loop: yielded by the glob,
`is_file()`, and not skipped by the substring test
`config.printed_folder in str(file_path)`. -/
def scanCond (cfg : Config) (ext : String) (e : FileEntry) : Bool :=
  e.isFile && globMatch ext e.name && !(strContains (fullPath cfg e.name) cfg.printed_folder)

/-- The filesystem operations a `process_file` run actually performed, read
off its event trace. -/
def traceFsOps (tr : List PipeEvent) : List FsOp :=
  tr.filterMap (fun e => match e with | PipeEvent.fsOp op => some op | _ => none)

/-- How a run's filesystem operations change the watch-directory listing:
`os.remove`/`shutil.move` take the source file out of the listing (the move
target lives in the `printed` subdirectory, never at top level).
`os.makedirs` creates the archive directory — itself a new top-level entry,
omitted here because the scan's `is_file()` guard discards directory
entries, so it can never be selected. -/
def applyOpsToDir (cfg : Config) (ops : List FsOp) (entries : List FileEntry) :
    List FileEntry :=
  ops.foldl (fun es op =>
    match op with
    | FsOp.remove p => es.filter (fun e => fullPath cfg e.name != p)
    | FsOp.move src _ => es.filter (fun e => fullPath cfg e.name != src)
    | FsOp.mkdirs _ => es) entries

/-- One pass of `process_existing_files` for a single configured extension:
iterate over the glob snapshot taken at the start of the pass, run
`process_file` on every entry passing `scanCond`, thread the dedup set, and
update the live directory listing with the filesystem operations each run
performed.  (Within a pass only already-consumed entries are ever removed —
a run touches exactly its own file — so for a listing with distinct names
the pass-start snapshot is exact even though the source iterates a lazy
glob.) -/
def scanPass (cfg : Config) (env : String → FileEnv) (ext : String) :
    List FileEntry → Finset String → List FileEntry →
    Finset String × List (String × List PipeEvent) × List FileEntry
  | [], s, dir => (s, [], dir)
  | e :: rest, s, dir =>
    if scanCond cfg ext e then
      let p := fullPath cfg e.name
      let r := process_file cfg (env p) s p
      let dir2 := applyOpsToDir cfg (traceFsOps r.2) dir
      let r2 := scanPass cfg env ext rest r.1 dir2
      (r2.1, (p, r.2) :: r2.2.1, r2.2.2)
    else scanPass cfg env ext rest s dir

/-- The outer loop of `process_existing_files`: one `watch_path.glob` pass
per configured extension, each pass re-listing the directory as mutated by
the moves/deletes of the earlier passes. -/
def scanExts (cfg : Config) (env : String → FileEnv) :
    List String → Finset String → List FileEntry →
    Finset String × List (String × List PipeEvent) × List FileEntry
  | [], s, dir => (s, [], dir)
  | ext :: exts, s, dir =>
    let r1 := scanPass cfg env ext dir s dir
    let r2 := scanExts cfg env exts r1.1 r1.2.2
    (r2.1, r1.2.1 ++ r2.2.1, r2.2.2)

/-- Model of `process_existing_files`: one synchronous scan over the watch
directory for every configured extension in order, calling
`handler.process_file` on each match; `entries` is the directory listing at
scan start.  Returns the dedup set, the recorded calls, and the final
listing. -/
def process_existing_files (cfg : Config) (env : String → FileEnv)
    (entries : List FileEntry) (s : Finset String) :
    Finset String × List (String × List PipeEvent) × List FileEntry :=
  scanExts cfg env cfg.file_extensions s entries

/-- Declarative concat-map used to characterise the scan's selection. -/
def concatMap (f : α → List β) : List α → List β
  | [] => []
  | a :: l => f a ++ concatMap f l

/-! ## Configuration loading (`Config.load`, `Config.create_default_config`) -/

/-- A parsed JSON configuration object, restricted to the recognised keys;
`none` means the key is absent (so `data.get(key, default)` falls back). -/
structure ConfigJson where
  watch_folder : Option String
  printer_name : Option String
  check_interval_seconds : Option Int
  delete_after_print : Option Bool
  move_after_print : Option Bool
  printed_folder : Option String
  file_extensions : Option (List String)
  print_delay_seconds : Option Int
  move_delete_delay_seconds : Option Int
  print_method : Option String
  acrobat_path : Option String
deriving DecidableEq

/-- The content found at the configuration path: unparsable JSON or a
parsed object. -/
inductive ConfigFile where
  | invalidJson
  | json (d : ConfigJson)
deriving DecidableEq

/-- Every key of the object is present. -/
def configJsonComplete (d : ConfigJson) : Prop :=
  d.watch_folder.isSome = true ∧ d.printer_name.isSome = true ∧
    d.check_interval_seconds.isSome = true ∧ d.delete_after_print.isSome = true ∧
    d.move_after_print.isSome = true ∧ d.printed_folder.isSome = true ∧
    d.file_extensions.isSome = true ∧ d.print_delay_seconds.isSome = true ∧
    d.move_delete_delay_seconds.isSome = true ∧ d.print_method.isSome = true ∧
    d.acrobat_path.isSome = true

/-- The dictionary written by `Config.create_default_config`. -/
def defaultConfigJson : ConfigJson :=
  ConfigJson.mk (some "C:\\Sync\\PDFs") (some "") (some 1) (some false) (some true)
    (some "printed") (some [".pdf"]) (some 2) (some 60) (some "acrobat") (some "")

/-- The field-by-field `data.get(key, default)` assignments of
`Config.load`, including the `_find_acrobat_path` fallback for a blank
`acrobat_path` (`autoAcrobat` is the auto-detection result). -/
def applyDefaults (d : ConfigJson) (autoAcrobat : String) : Config :=
  Config.mk (d.watch_folder.getD "") (d.printer_name.getD "")
    (d.check_interval_seconds.getD 1) (d.delete_after_print.getD false)
    (d.move_after_print.getD true) (d.printed_folder.getD "printed")
    (d.file_extensions.getD [".pdf"]) (d.print_delay_seconds.getD 2)
    (d.move_delete_delay_seconds.getD 60) (d.print_method.getD "acrobat")
    (let a := d.acrobat_path.getD ""; if a = "" then autoAcrobat else a)

/-- Outcome of `Config.load` as observed by `main`. -/
inductive LoadResult where
  | ok (cfg : Config)
  | exitMissingCreated
  | exitInvalidJson
deriving DecidableEq

/-- Model of `Config.load`: a missing file writes the default configuration to the
config path and raises `SystemExit`; invalid JSON raises `SystemExit`;
otherwise the fields are loaded with their defaults.  Returns the result
together with the file now present at the config path. -/
def config_load (file : Option ConfigFile) (autoAcrobat : String) :
    LoadResult × Option ConfigFile :=
  match file with
  | none => (LoadResult.exitMissingCreated, some (ConfigFile.json defaultConfigJson))
  | some ConfigFile.invalidJson => (LoadResult.exitInvalidJson, some ConfigFile.invalidJson)
  | some (ConfigFile.json d) =>
    (LoadResult.ok (applyDefaults d autoAcrobat), some (ConfigFile.json d))

/-- How far `main` gets before the watcher pipeline would start. -/
inductive MainOutcome where
  | exitedAfterCreatingDefault
  | exitedInvalidJson
  | reachedValidation (cfg : Config)
deriving DecidableEq

/-- The startup portion of `main`: construct `Config` (whose constructor
calls `load`); `SystemExit` is caught and `main` returns without entering
the pipeline; on success `main` proceeds to `config.validate()`. -/
def main_startup (file : Option ConfigFile) (autoAcrobat : String) :
    MainOutcome × Option ConfigFile :=
  match config_load file autoAcrobat with
  | (LoadResult.ok cfg, f2) => (MainOutcome.reachedValidation cfg, f2)
  | (LoadResult.exitMissingCreated, f2) => (MainOutcome.exitedAfterCreatingDefault, f2)
  | (LoadResult.exitInvalidJson, f2) => (MainOutcome.exitedInvalidJson, f2)

/-! ## Sample data used by witnesses and counterexamples -/

/-- A representative move-after-print configuration. -/
def sampleConfig : Config :=
  Config.mk "C:/w" "HP LaserJet" 1 false true "printed" [".pdf"] 2 60 "acrobat"
    "C:/Acrobat/Acrobat.exe"

/-- A configuration that leaves printed files in place and (legally) lists
the same extension twice. -/
def keepConfig : Config :=
  Config.mk "C:/w" "" 1 false false "printed" [".pdf", ".pdf"] 0 0 "acrobat" ""

/-- A delete-after-print configuration. -/
def deleteConfig : Config :=
  Config.mk "C:/w" "" 1 true true "printed" [".pdf"] 2 60 "acrobat" ""

def sampleTs : Timestamp := Timestamp.mk 2025 10 12 9 30 0

def sampleTs2 : Timestamp := Timestamp.mk 2025 10 12 9 30 1

/-- One probe that immediately sees a stable non-empty file. -/
def readyProbes : List Probe := [Probe.mk true 100 100]

/-- Probes that never see a stable non-empty size within the timeout. -/
def unstableProbes : List Probe :=
  [Probe.mk true 5 6, Probe.mk false 3 3, Probe.mk true 0 0]

def sampleEnvOk : FileEnv := FileEnv.mk readyProbes true sampleTs

def sampleEnvFail : FileEnv := FileEnv.mk readyProbes false sampleTs

def sampleFs : FsState :=
  FsState.mk {"C:/w/a.pdf", "C:/w/b.pdf"} {"C:/w"}

/-! ## Generic lemmas about the embedded operations -/

theorem is_file_ready_eq_false (probes : List Probe)
    (h : ∀ pr ∈ probes, ¬(pr.openOk = true ∧ pr.size1 = pr.size2 ∧ 0 < pr.size1)) :
    is_file_ready probes = false := by
  induction probes with
  | nil => rfl
  | cons pr rest ih =>
    rw [is_file_ready, if_neg (h pr (by simp))]
    exact ih (fun q hq => h q (by simp [hq]))

/-- The event trace of `process_file` does not depend on the incoming
dedup set. -/
theorem process_file_trace_indep (cfg : Config) (env : FileEnv) (path : String)
    (s s2 : Finset String) :
    (process_file cfg env s path).2 = (process_file cfg env s2 path).2 := by
  unfold process_file
  split
  · rfl
  · split <;> rfl

/-! ## C2 -/

/-- C2.  A file whose probes never see a stable positive size within the
readiness timeout makes `is_file_ready` return `false`; `process_file` then
returns immediately: the dedup set is unchanged and no `printCall` event is
ever emitted, so the file is never passed to the print dispatcher. -/
theorem never_ready_never_dispatched (probes : List Probe)
    (h : ∀ pr ∈ probes, ¬(pr.openOk = true ∧ pr.size1 = pr.size2 ∧ 0 < pr.size1)) :
    is_file_ready probes = false ∧
    ∀ (cfg : Config) (ps : Bool) (now : Timestamp) (s : Finset String) (path : String),
      process_file cfg (FileEnv.mk probes ps now) s path
          = (s, [PipeEvent.readinessCheck false]) ∧
      (process_file cfg (FileEnv.mk probes ps now) s path).1 = s ∧
      ∀ (q : String) (b : Bool),
        PipeEvent.printCall q b ∉ (process_file cfg (FileEnv.mk probes ps now) s path).2 := by
  have hr : is_file_ready probes = false := is_file_ready_eq_false probes h
  refine ⟨hr, fun cfg ps now s path => ?_⟩
  have he : process_file cfg (FileEnv.mk probes ps now) s path
      = (s, [PipeEvent.readinessCheck false]) := by
    unfold process_file
    simp [hr]
  refine ⟨he, by rw [he], ?_⟩
  intro q b
  rw [he]
  simp

/-- Witness for C2 at concrete unstable probes. -/
theorem never_ready_never_dispatched_witness :
    is_file_ready unstableProbes = false ∧
    process_file sampleConfig (FileEnv.mk unstableProbes true sampleTs) ∅ "C:/w/a.pdf"
      = (∅, [PipeEvent.readinessCheck false]) := by
  have h := never_ready_never_dispatched unstableProbes (by decide)
  exact ⟨h.1, (h.2 sampleConfig true sampleTs ∅ "C:/w/a.pdf").1⟩

/-! ## C1 -/

/-- C1 (amended).  In every run that passes the readiness gate, the path is
added to the dedup set *before* the print attempt — the trace places
`markProcessed` strictly before the `printCall`, with no dispatch call
before the mark — and a failed print evicts the path, so after the run the
path is in the set exactly when the print succeeded. -/
theorem dedup_marked_before_print (cfg : Config) (env : FileEnv) (s : Finset String)
    (path : String) (hready : is_file_ready env.probes = true) :
    (∃ l1 l2, (process_file cfg env s path).2
        = l1 ++ PipeEvent.markProcessed path :: PipeEvent.printCall path env.printSuccess :: l2
      ∧ ∀ b : Bool, PipeEvent.printCall path b ∉ l1) ∧
    (env.printSuccess = false → path ∉ (process_file cfg env s path).1) ∧
    (path ∈ (process_file cfg env s path).1 ↔ env.printSuccess = true) := by
  by_cases hp : env.printSuccess = true
  · refine ⟨⟨PipeEvent.readinessCheck true ::
        (if 0 < cfg.print_delay_seconds then [PipeEvent.settleDelay cfg.print_delay_seconds]
         else []),
        postDelayTrace cfg ++ (handle_after_print cfg env.now path).map PipeEvent.fsOp,
        ?_, ?_⟩, ?_, ?_⟩
    · unfold process_file
      simp [hready, hp, preTrace, List.append_assoc]
    · intro b
      split <;> simp
    · intro hfalse
      rw [hp] at hfalse
      exact absurd hfalse (by simp)
    · unfold process_file
      simp [hready, hp]
  · have hp2 : env.printSuccess = false := by
      cases hpe : env.printSuccess
      · rfl
      · exact absurd hpe hp
    refine ⟨⟨PipeEvent.readinessCheck true ::
        (if 0 < cfg.print_delay_seconds then [PipeEvent.settleDelay cfg.print_delay_seconds]
         else []),
        postDelayTrace cfg ++ [PipeEvent.unmarkProcessed path], ?_, ?_⟩, ?_, ?_⟩
    · unfold process_file
      simp [hready, hp2, preTrace, List.append_assoc]
    · intro b
      split <;> simp
    · intro _
      unfold process_file
      simp [hready, hp2]
    · unfold process_file
      simp [hready, hp2]

/-- Witness for C1 (amended) at a concrete successful run. -/
theorem dedup_marked_before_print_witness :
    (∃ l1 l2, (process_file sampleConfig sampleEnvOk ∅ "C:/w/a.pdf").2
        = l1 ++ PipeEvent.markProcessed "C:/w/a.pdf"
            :: PipeEvent.printCall "C:/w/a.pdf" sampleEnvOk.printSuccess :: l2
      ∧ ∀ b : Bool, PipeEvent.printCall "C:/w/a.pdf" b ∉ l1) ∧
    (sampleEnvOk.printSuccess = false →
      "C:/w/a.pdf" ∉ (process_file sampleConfig sampleEnvOk ∅ "C:/w/a.pdf").1) ∧
    ("C:/w/a.pdf" ∈ (process_file sampleConfig sampleEnvOk ∅ "C:/w/a.pdf").1
      ↔ sampleEnvOk.printSuccess = true) :=
  dedup_marked_before_print sampleConfig sampleEnvOk ∅ "C:/w/a.pdf" (by decide)

/-- Counterexample to C1 as stated: in a run whose print dispatch fails,
the trace contains the dedup-set addition even though no successful print
occurs anywhere in the run — the addition happens before the print attempt,
not after a successful print. -/
theorem dedup_premark_counterexample :
    PipeEvent.markProcessed "C:/w/a.pdf"
        ∈ (process_file sampleConfig sampleEnvFail ∅ "C:/w/a.pdf").2 ∧
    List.count (PipeEvent.printCall "C:/w/a.pdf" true)
        (process_file sampleConfig sampleEnvFail ∅ "C:/w/a.pdf").2 = 0 := by
  decide

/-! ## C3 -/

/-- C3.  When the print dispatch of a run reports failure, the path is not
in the dedup set once `process_file` completes, and a subsequent arrival
event for the same (recognised) path is not skipped: it re-enters the
pipeline as a fresh `process_file` run. -/
theorem print_failure_evicts (cfg : Config) (env : FileEnv) (s : Finset String)
    (path : String) (hready : is_file_ready env.probes = true)
    (hfail : env.printSuccess = false) :
    path ∉ (process_file cfg env s path).1 ∧
    ∀ (env2 : FileEnv), extRecognized cfg path = true →
      on_created cfg env2 false path (process_file cfg env s path).1
        = process_file cfg env2 (process_file cfg env s path).1 path := by
  have hnot : path ∉ (process_file cfg env s path).1 := by
    unfold process_file
    simp [hready, hfail]
  refine ⟨hnot, fun env2 hext => ?_⟩
  unfold on_created
  simp [hext, hnot]

/-- Witness for C3 at a concrete failed run. -/
theorem print_failure_evicts_witness :
    "C:/w/a.pdf" ∉ (process_file sampleConfig sampleEnvFail ∅ "C:/w/a.pdf").1 ∧
    ∀ (env2 : FileEnv), extRecognized sampleConfig "C:/w/a.pdf" = true →
      on_created sampleConfig env2 false "C:/w/a.pdf"
          (process_file sampleConfig sampleEnvFail ∅ "C:/w/a.pdf").1
        = process_file sampleConfig env2
            (process_file sampleConfig sampleEnvFail ∅ "C:/w/a.pdf").1 "C:/w/a.pdf" :=
  print_failure_evicts sampleConfig sampleEnvFail ∅ "C:/w/a.pdf" (by decide) (by decide)

/-! ## C10 -/

/-- C10.  A missing configuration file makes startup write the complete
default configuration to the config path and exit via `SystemExit` before
the pipeline; a second start that finds the generated file proceeds to
validation. -/
theorem missing_config_creates_default :
    (∀ autoAcrobat : String,
      main_startup none autoAcrobat
        = (MainOutcome.exitedAfterCreatingDefault, some (ConfigFile.json defaultConfigJson))) ∧
    configJsonComplete defaultConfigJson ∧
    (∀ autoAcrobat : String,
      main_startup (some (ConfigFile.json defaultConfigJson)) autoAcrobat
        = (MainOutcome.reachedValidation (applyDefaults defaultConfigJson autoAcrobat),
           some (ConfigFile.json defaultConfigJson))) :=
  ⟨fun _ => rfl, by simp [configJsonComplete, defaultConfigJson], fun _ => rfl⟩

/-! ## Scan characterisation lemmas -/

theorem string_append_left_cancel (x a b : String) (h : x ++ a = x ++ b) : a = b := by
  apply String.ext
  have hd := congrArg String.data h
  rw [String.data_append, String.data_append] at hd
  exact List.append_cancel_left hd

/-- Entry names determine full scan paths injectively. -/
theorem fullPath_inj (cfg : Config) (a b : String) (h : fullPath cfg a = fullPath cfg b) :
    a = b := by
  unfold fullPath joinPath at h
  exact string_append_left_cancel _ _ _ h

theorem traceFsOps_preTrace (cfg : Config) (p : String) (r : Bool) :
    traceFsOps (preTrace cfg p r) = [] := by
  unfold preTrace
  split <;> rfl

theorem traceFsOps_postDelay (cfg : Config) : traceFsOps (postDelayTrace cfg) = [] := by
  unfold postDelayTrace
  split <;> rfl

theorem traceFsOps_map_fsOp (ops : List FsOp) :
    traceFsOps (ops.map PipeEvent.fsOp) = ops := by
  induction ops with
  | nil => rfl
  | cons op l ih =>
    show op :: traceFsOps (l.map PipeEvent.fsOp) = op :: l
    rw [ih]

/-- The filesystem operations a `process_file` run performs are exactly the
resolver's operations, and only when the file was ready and the print
succeeded. -/
theorem traceFsOps_process_file (cfg : Config) (envf : FileEnv) (s : Finset String)
    (p : String) :
    traceFsOps (process_file cfg envf s p).2
      = if is_file_ready envf.probes = true ∧ envf.printSuccess = true
        then handle_after_print cfg envf.now p else [] := by
  unfold process_file
  by_cases hr : is_file_ready envf.probes = false
  · rw [if_pos hr, if_neg (by simp [hr])]
    rfl
  · have hr2 : is_file_ready envf.probes = true := by
      cases h2 : is_file_ready envf.probes
      · exact absurd h2 hr
      · rfl
    rw [if_neg hr]
    by_cases hp : envf.printSuccess = true
    · rw [if_pos hp, if_pos ⟨hr2, hp⟩]
      show traceFsOps (preTrace cfg p true ++ postDelayTrace cfg
        ++ (handle_after_print cfg envf.now p).map PipeEvent.fsOp) = _
      rw [traceFsOps, List.filterMap_append, List.filterMap_append]
      rw [show ∀ l, List.filterMap
        (fun e => match e with | PipeEvent.fsOp op => some op | _ => none) l
        = traceFsOps l from fun _ => rfl]
      rw [show ∀ l, List.filterMap
        (fun e => match e with | PipeEvent.fsOp op => some op | _ => none) l
        = traceFsOps l from fun _ => rfl]
      rw [show ∀ l, List.filterMap
        (fun e => match e with | PipeEvent.fsOp op => some op | _ => none) l
        = traceFsOps l from fun _ => rfl]
      rw [traceFsOps_preTrace, traceFsOps_postDelay, traceFsOps_map_fsOp]
      rfl
    · rw [if_neg hp, if_neg (by simp [hp])]
      show traceFsOps (preTrace cfg p false ++ postDelayTrace cfg
        ++ [PipeEvent.unmarkProcessed p]) = _
      rw [traceFsOps, List.filterMap_append, List.filterMap_append]
      rw [show ∀ l, List.filterMap
        (fun e => match e with | PipeEvent.fsOp op => some op | _ => none) l
        = traceFsOps l from fun _ => rfl]
      rw [show ∀ l, List.filterMap
        (fun e => match e with | PipeEvent.fsOp op => some op | _ => none) l
        = traceFsOps l from fun _ => rfl]
      rw [traceFsOps_preTrace, traceFsOps_postDelay]
      rfl

/-- Predicate: the operation takes the file at `p` out of its directory. -/
def opRemoves (op : FsOp) (p : String) : Prop :=
  op = FsOp.remove p ∨ ∃ d, op = FsOp.move p d

/-- The resolver only ever removes/moves the file it was given. -/
theorem handle_after_print_opRemoves (cfg : Config) (t : Timestamp) (p0 : String) :
    ∀ op ∈ handle_after_print cfg t p0, ∀ q, opRemoves op q → q = p0 := by
  intro op hop q hq
  unfold handle_after_print at hop
  split at hop
  · rw [List.mem_singleton] at hop
    subst hop
    rcases hq with h | ⟨d, h⟩
    · injection h with h2
      exact h2.symm
    · exact absurd h (by simp)
  · split at hop
    · rcases List.mem_cons.mp hop with h0 | h0
      · subst h0
        rcases hq with h | ⟨d, h⟩
        · exact absurd h (by simp)
        · exact absurd h (by simp)
      · rw [List.mem_singleton] at h0
        subst h0
        rcases hq with h | ⟨d, h⟩
        · exact absurd h (by simp)
        · injection h with h2 h3
          exact h2.symm
    · exact absurd hop (by simp)

/-- An entry whose full path is never removed/moved survives the directory
update. -/
theorem applyOpsToDir_keep (cfg : Config) (e : FileEntry) :
    ∀ (ops : List FsOp), (∀ op ∈ ops, ¬ opRemoves op (fullPath cfg e.name)) →
      ∀ dir, e ∈ dir → e ∈ applyOpsToDir cfg ops dir := by
  intro ops
  induction ops with
  | nil => intro _ dir hd; exact hd
  | cons op ops ih =>
    intro h dir hd
    show e ∈ applyOpsToDir cfg ops _
    refine ih (fun o ho => h o (by simp [ho])) _ ?_
    have hop := h op (by simp)
    cases op with
    | mkdirs d => exact hd
    | remove p =>
      refine List.mem_filter.mpr ⟨hd, bne_iff_ne.mpr ?_⟩
      intro hcontra
      exact hop (Or.inl (by rw [hcontra]))
    | move src dst =>
      refine List.mem_filter.mpr ⟨hd, bne_iff_ne.mpr ?_⟩
      intro hcontra
      exact hop (Or.inr ⟨dst, by rw [hcontra]⟩)

/-- The directory update only removes entries. -/
theorem applyOpsToDir_sublist (cfg : Config) :
    ∀ (ops : List FsOp) (dir : List FileEntry),
      List.Sublist (applyOpsToDir cfg ops dir) dir := by
  intro ops
  induction ops with
  | nil => intro dir; exact List.Sublist.refl dir
  | cons op ops ih =>
    intro dir
    show List.Sublist (applyOpsToDir cfg ops _) dir
    cases op with
    | mkdirs d => exact ih dir
    | remove p => exact (ih _).trans (List.filter_sublist dir)
    | move src dst => exact (ih _).trans (List.filter_sublist dir)

/-- The paths a pass processes are exactly the snapshot entries passing
`scanCond`, in order, independent of the dedup set and the live listing. -/
theorem scanPass_paths (cfg : Config) (env : String → FileEnv) (ext : String) :
    ∀ (snapshot : List FileEntry) (s : Finset String) (dir : List FileEntry),
      ((scanPass cfg env ext snapshot s dir).2.1).map Prod.fst
        = (snapshot.filter (scanCond cfg ext)).map (fun e => fullPath cfg e.name) := by
  intro snapshot
  induction snapshot with
  | nil => intro s dir; simp [scanPass]
  | cons e rest ih =>
    intro s dir
    by_cases h : scanCond cfg ext e = true
    · simp [scanPass, h, ih]
    · simp [scanPass, h, ih]

/-- Every call a pass records carries the trace of a plain `process_file`
run on its path. -/
theorem scanPass_traces (cfg : Config) (env : String → FileEnv) (ext : String) :
    ∀ (snapshot : List FileEntry) (s : Finset String) (dir : List FileEntry)
      (q : String × List PipeEvent),
      q ∈ (scanPass cfg env ext snapshot s dir).2.1 →
      ∀ s2 : Finset String, q.2 = (process_file cfg (env q.1) s2 q.1).2 := by
  intro snapshot
  induction snapshot with
  | nil => intro s dir q hq; simp [scanPass] at hq
  | cons e rest ih =>
    intro s dir q hq s2
    by_cases h : scanCond cfg ext e = true
    · rw [scanPass, if_pos h] at hq
      rcases List.mem_cons.mp hq with heq | hmem
      · subst heq
        exact process_file_trace_indep cfg _ _ _ s2
      · exact ih _ _ q hmem s2
    · rw [scanPass, if_neg h] at hq
      exact ih _ _ q hq s2

/-- Every processed path of a pass comes from a snapshot entry passing
`scanCond`. -/
theorem scanPass_sound (cfg : Config) (env : String → FileEnv) (ext : String)
    (snapshot : List FileEntry) (s : Finset String) (dir : List FileEntry)
    (q : String × List PipeEvent) (hq : q ∈ (scanPass cfg env ext snapshot s dir).2.1) :
    ∃ e ∈ snapshot, scanCond cfg ext e = true ∧ q.1 = fullPath cfg e.name := by
  have hmem : q.1 ∈ ((scanPass cfg env ext snapshot s dir).2.1).map Prod.fst :=
    List.mem_map_of_mem Prod.fst hq
  rw [scanPass_paths] at hmem
  rcases List.mem_map.mp hmem with ⟨e, he, heq⟩
  rcases List.mem_filter.mp he with ⟨he2, hcond⟩
  exact ⟨e, he2, hcond, heq.symm⟩

/-- An entry whose name does not glob-match the pass's extension survives
the whole pass in the live listing. -/
theorem scanPass_dir_keep (cfg : Config) (env : String → FileEnv) (ext : String)
    (e : FileEntry) (hg : globMatch ext e.name = false) :
    ∀ (snapshot : List FileEntry) (s : Finset String) (dir : List FileEntry),
      e ∈ dir → e ∈ (scanPass cfg env ext snapshot s dir).2.2 := by
  intro snapshot
  induction snapshot with
  | nil => intro s dir hd; exact hd
  | cons e2 rest ih =>
    intro s dir hd
    by_cases h : scanCond cfg ext e2 = true
    · rw [scanPass, if_pos h]
      refine ih _ _ ?_
      have hglob2 : globMatch ext e2.name = true := by
        unfold scanCond at h
        simp only [Bool.and_eq_true] at h
        exact h.1.2
      have hne : fullPath cfg e.name ≠ fullPath cfg e2.name := by
        intro hcontra
        have hnm := fullPath_inj cfg _ _ hcontra
        rw [hnm, hglob2] at hg
        exact Bool.noConfusion hg
      apply applyOpsToDir_keep cfg e
      · intro op hop hcon
        rw [traceFsOps_process_file] at hop
        split at hop
        · exact hne (handle_after_print_opRemoves cfg _ _ op hop _ hcon)
        · exact absurd hop (by simp)
      · exact hd
    · rw [scanPass, if_neg h]
      exact ih _ _ hd

/-- A pass only removes entries from the live listing. -/
theorem scanPass_dir_sublist (cfg : Config) (env : String → FileEnv) (ext : String) :
    ∀ (snapshot : List FileEntry) (s : Finset String) (dir : List FileEntry),
      List.Sublist (scanPass cfg env ext snapshot s dir).2.2 dir := by
  intro snapshot
  induction snapshot with
  | nil => intro s dir; exact List.Sublist.refl dir
  | cons e2 rest ih =>
    intro s dir
    by_cases h : scanCond cfg ext e2 = true
    · rw [scanPass, if_pos h]
      exact (ih _ _).trans (applyOpsToDir_sublist cfg _ dir)
    · rw [scanPass, if_neg h]
      exact ih _ _

/-- Every call the whole scan records runs the per-file sequence of a live
arrival on its path. -/
theorem scanExts_traces (cfg : Config) (env : String → FileEnv) :
    ∀ (exts : List String) (s : Finset String) (dir : List FileEntry)
      (q : String × List PipeEvent),
      q ∈ (scanExts cfg env exts s dir).2.1 →
      ∀ s2 : Finset String, q.2 = (process_file cfg (env q.1) s2 q.1).2 := by
  intro exts
  induction exts with
  | nil => intro s dir q hq; simp [scanExts] at hq
  | cons x xs ih =>
    intro s dir q hq s2
    rw [scanExts] at hq
    rcases List.mem_append.mp hq with hmem | hmem
    · exact scanPass_traces cfg env x dir s dir q hmem s2
    · exact ih _ _ q hmem s2

/-- Every path the scan processes arises from an entry of the start-of-scan
listing that passes some pass's `scanCond` (regular file, glob match, no
archive-name substring in its path). -/
theorem scanExts_sound (cfg : Config) (env : String → FileEnv) :
    ∀ (exts : List String) (s : Finset String) (dir : List FileEntry)
      (q : String × List PipeEvent),
      q ∈ (scanExts cfg env exts s dir).2.1 →
      ∃ ext ∈ exts, ∃ e ∈ dir, scanCond cfg ext e = true ∧ q.1 = fullPath cfg e.name := by
  intro exts
  induction exts with
  | nil => intro s dir q hq; simp [scanExts] at hq
  | cons x xs ih =>
    intro s dir q hq
    rw [scanExts] at hq
    rcases List.mem_append.mp hq with hmem | hmem
    · rcases scanPass_sound cfg env x dir s dir q hmem with ⟨e, he, hcond, heq⟩
      exact ⟨x, by simp, e, he, hcond, heq⟩
    · rcases ih _ _ q hmem with ⟨ext, hext, e, he, hcond, heq⟩
      have he2 : e ∈ dir := (scanPass_dir_sublist cfg env x dir s dir).subset he
      exact ⟨ext, by simp [hext], e, he2, hcond, heq⟩

/-- Every eligible listed file (regular, glob-matching some configured
extension, not substring-excluded) is processed at least once, starting
from its first matching extension pass. -/
theorem scanExts_complete (cfg : Config) (env : String → FileEnv) :
    ∀ (exts : List String) (s : Finset String) (dir : List FileEntry) (e : FileEntry),
      e ∈ dir → e.isFile = true →
      strContains (fullPath cfg e.name) cfg.printed_folder = false →
      (∃ x ∈ exts, globMatch x e.name = true) →
      fullPath cfg e.name ∈ ((scanExts cfg env exts s dir).2.1).map Prod.fst := by
  intro exts
  induction exts with
  | nil => intro s dir e _ _ _ hex; simp at hex
  | cons x xs ih =>
    intro s dir e hd hf hsub hex
    rw [scanExts]
    simp only [List.map_append, List.mem_append]
    by_cases hg : globMatch x e.name = true
    · left
      have hcond : scanCond cfg x e = true := by
        unfold scanCond
        rw [hf, hg, hsub]
        rfl
      rw [scanPass_paths]
      exact List.mem_map_of_mem _ (List.mem_filter.mpr ⟨hd, hcond⟩)
    · right
      have hg2 : globMatch x e.name = false := by
        cases h2 : globMatch x e.name
        · rfl
        · exact absurd h2 hg
      have hkeep := scanPass_dir_keep cfg env x e hg2 dir s dir hd
      rcases hex with ⟨x0, hx0, hgx0⟩
      rcases List.mem_cons.mp hx0 with h0 | h0
      · subst h0
        exact absurd hgx0 hg
      · exact ih _ _ e hkeep hf hsub ⟨x0, h0, hgx0⟩

/-- A pass for an extension the entry's name does not match never
processes the entry's path. -/
theorem scanPass_count_zero (cfg : Config) (env : String → FileEnv) (ext : String)
    (e : FileEntry) (hg : globMatch ext e.name = false)
    (snapshot : List FileEntry) (s : Finset String) (dir : List FileEntry) :
    List.count (fullPath cfg e.name)
      (((scanPass cfg env ext snapshot s dir).2.1).map Prod.fst) = 0 := by
  rw [List.count_eq_zero]
  intro hmem
  rw [scanPass_paths] at hmem
  rcases List.mem_map.mp hmem with ⟨e2, he2, heq⟩
  rcases List.mem_filter.mp he2 with ⟨_, hcond⟩
  unfold scanCond at hcond
  simp only [Bool.and_eq_true] at hcond
  have hnm := fullPath_inj cfg _ _ heq
  rw [← hnm, hcond.1.2] at hg
  exact Bool.noConfusion hg

/-- Passes whose extensions the entry's name matches nowhere never process
the entry's path. -/
theorem scanExts_count_zero (cfg : Config) (env : String → FileEnv) (e : FileEntry)
    (exts : List String) (s : Finset String) (dir : List FileEntry)
    (h : ∀ x ∈ exts, globMatch x e.name = false) :
    List.count (fullPath cfg e.name)
      (((scanExts cfg env exts s dir).2.1).map Prod.fst) = 0 := by
  rw [List.count_eq_zero]
  intro hmem
  rcases List.mem_map.mp hmem with ⟨q, hq, heq⟩
  rcases scanExts_sound cfg env exts s dir q hq with ⟨x, hx, e2, _, hcond, hq1⟩
  unfold scanCond at hcond
  simp only [Bool.and_eq_true] at hcond
  have hnm := fullPath_inj cfg _ _ (hq1 ▸ heq)
  have hfx := h x hx
  rw [← hnm, hcond.1.2] at hfx
  exact Bool.noConfusion hfx

theorem filter_map_count_one (cfg : Config) (ext : String) (e : FileEntry)
    (hcond : scanCond cfg ext e = true) :
    ∀ l : List FileEntry, (l.map FileEntry.name).Nodup → e ∈ l →
      List.count (fullPath cfg e.name)
        ((l.filter (scanCond cfg ext)).map (fun e2 => fullPath cfg e2.name)) = 1 := by
  intro l
  induction l with
  | nil => intro _ hmem; simp at hmem
  | cons a l ih =>
    intro hnd hmem
    have hnd2 : FileEntry.name a ∉ l.map FileEntry.name ∧
        (l.map FileEntry.name).Nodup := by
      rw [List.map_cons, List.nodup_cons] at hnd
      exact hnd
    rcases List.mem_cons.mp hmem with heq | hmem2
    · subst heq
      rw [List.filter_cons_of_pos hcond, List.map_cons, List.count_cons_self]
      have hzero : List.count (fullPath cfg e.name)
          ((l.filter (scanCond cfg ext)).map (fun e2 => fullPath cfg e2.name)) = 0 := by
        rw [List.count_eq_zero]
        intro hc
        rcases List.mem_map.mp hc with ⟨e2, he2, heqc⟩
        have hnm := fullPath_inj cfg _ _ heqc
        exact hnd2.1 (hnm ▸ List.mem_map_of_mem FileEntry.name
          ((List.filter_sublist l).subset he2))
      rw [hzero]
    · have hne : FileEntry.name a ≠ FileEntry.name e := by
        intro hcontra
        exact hnd2.1 (hcontra ▸ List.mem_map_of_mem FileEntry.name hmem2)
      have hnefp : fullPath cfg e.name ≠ fullPath cfg a.name := by
        intro hcontra
        exact hne (fullPath_inj cfg _ _ hcontra).symm
      by_cases ha : scanCond cfg ext a = true
      · rw [List.filter_cons_of_pos ha, List.map_cons, List.count_cons_of_ne hnefp]
        exact ih hnd2.2 hmem2
      · rw [List.filter_cons_of_neg (by simp [ha])]
        exact ih hnd2.2 hmem2

/-- With distinct listing names and exactly one matching configured
extension, the scan processes the file exactly once. -/
theorem scanExts_count_one (cfg : Config) (env : String → FileEnv) (e : FileEntry)
    (hf : e.isFile = true)
    (hsub : strContains (fullPath cfg e.name) cfg.printed_folder = false) :
    ∀ (exts : List String) (s : Finset String) (dir : List FileEntry),
      (dir.map FileEntry.name).Nodup → e ∈ dir →
      exts.countP (fun x => globMatch x e.name) = 1 →
      List.count (fullPath cfg e.name)
        (((scanExts cfg env exts s dir).2.1).map Prod.fst) = 1 := by
  intro exts
  induction exts with
  | nil =>
    intro s dir _ _ hcount
    rw [List.countP_nil] at hcount
    omega
  | cons x xs ih =>
    intro s dir hnd hd hcount
    rw [scanExts]
    simp only [List.map_append, List.count_append]
    by_cases hg : globMatch x e.name = true
    · have hstep : (x :: xs).countP (fun x2 => globMatch x2 e.name)
          = xs.countP (fun x2 => globMatch x2 e.name) + 1 := by
        rw [List.countP_cons]
        simp [hg]
      have hxs : xs.countP (fun x2 => globMatch x2 e.name) = 0 := by
        rw [hstep] at hcount
        omega
      have hzero : ∀ x2 ∈ xs, globMatch x2 e.name = false := by
        intro x2 hx2
        cases h2 : globMatch x2 e.name
        · rfl
        · have : 0 < xs.countP (fun x3 => globMatch x3 e.name) :=
            List.countP_pos_iff.mpr ⟨x2, hx2, h2⟩
          omega
      have hcond : scanCond cfg x e = true := by
        unfold scanCond
        rw [hf, hg, hsub]
        rfl
      rw [show ((scanPass cfg env x dir s dir).2.1).map Prod.fst
          = (dir.filter (scanCond cfg x)).map (fun e2 => fullPath cfg e2.name)
        from scanPass_paths cfg env x dir s dir]
      rw [filter_map_count_one cfg x e hcond dir hnd hd]
      rw [scanExts_count_zero cfg env e xs _ _ hzero]
    · have hg2 : globMatch x e.name = false := by
        cases h2 : globMatch x e.name
        · rfl
        · exact absurd h2 hg
      have hstep : (x :: xs).countP (fun x2 => globMatch x2 e.name)
          = xs.countP (fun x2 => globMatch x2 e.name) := by
        rw [List.countP_cons]
        simp [hg2]
      have hcount2 : xs.countP (fun x2 => globMatch x2 e.name) = 1 := by
        rw [hstep] at hcount
        exact hcount
      have hkeep := scanPass_dir_keep cfg env x e hg2 dir s dir hd
      have hnd2 : (((scanPass cfg env x dir s dir).2.2).map FileEntry.name).Nodup :=
        hnd.sublist ((scanPass_dir_sublist cfg env x dir s dir).map FileEntry.name)
      rw [scanPass_count_zero cfg env x e hg2 dir s dir]
      rw [ih _ _ hnd2 hkeep hcount2]

/-! ## C5 -/

/-- C5 (amended).  The startup scan runs, through the same per-file
sequence as a live arrival (`process_file`), every regular file of the
watch-directory listing whose name case-insensitively ends with a
configured extension and whose full path does not contain the archive
folder name as a substring — at least once, starting from its first
matching extension pass; when the listing has distinct names and exactly
one configured extension matches the name, exactly once; and every path
the scan processes arises from such a suffix-matching, non-excluded
regular file of the listing. -/
theorem startup_scan_selection (cfg : Config) (env : String → FileEnv)
    (entries : List FileEntry) (s : Finset String) :
    (∀ q ∈ (process_existing_files cfg env entries s).2.1,
      (∃ ext ∈ cfg.file_extensions, ∃ e ∈ entries,
        scanCond cfg ext e = true ∧ q.1 = fullPath cfg e.name) ∧
      ∀ s2 : Finset String, q.2 = (process_file cfg (env q.1) s2 q.1).2) ∧
    (∀ e ∈ entries, e.isFile = true →
      strContains (fullPath cfg e.name) cfg.printed_folder = false →
      (∃ ext ∈ cfg.file_extensions, globMatch ext e.name = true) →
      fullPath cfg e.name ∈ ((process_existing_files cfg env entries s).2.1).map Prod.fst) ∧
    (∀ e ∈ entries, (entries.map FileEntry.name).Nodup → e.isFile = true →
      strContains (fullPath cfg e.name) cfg.printed_folder = false →
      cfg.file_extensions.countP (fun x => globMatch x e.name) = 1 →
      List.count (fullPath cfg e.name)
        (((process_existing_files cfg env entries s).2.1).map Prod.fst) = 1) := by
  refine ⟨?_, ?_, ?_⟩
  · intro q hq
    exact ⟨scanExts_sound cfg env cfg.file_extensions s entries q hq,
      scanExts_traces cfg env cfg.file_extensions s entries q hq⟩
  · intro e he hf hsub hex
    exact scanExts_complete cfg env cfg.file_extensions s entries e he hf hsub hex
  · intro e he hnd hf hsub hcount
    exact scanExts_count_one cfg env e hf hsub cfg.file_extensions s entries hnd he hcount

/-- Witness for C5 (amended): the spec's own scenario — one pre-existing
`a.pdf` under a `.pdf`-only configuration is processed exactly once. -/
theorem startup_scan_selection_witness :
    fullPath sampleConfig "a.pdf"
        ∈ ((process_existing_files sampleConfig (fun _ => sampleEnvOk)
          [FileEntry.mk "a.pdf" true] ∅).2.1).map Prod.fst ∧
    List.count (fullPath sampleConfig "a.pdf")
        (((process_existing_files sampleConfig (fun _ => sampleEnvOk)
          [FileEntry.mk "a.pdf" true] ∅).2.1).map Prod.fst) = 1 := by
  have h := startup_scan_selection sampleConfig (fun _ => sampleEnvOk)
    [FileEntry.mk "a.pdf" true] ∅
  exact ⟨h.2.1 (FileEntry.mk "a.pdf" true) (by decide) (by decide) (by decide) (by decide),
    h.2.2 (FileEntry.mk "a.pdf" true) (by decide) (by decide) (by decide) (by decide)
      (by decide)⟩

/-- Counterexample to C5 as stated, on three points.  (i) `reprinted.pdf`
sits directly in the watch directory (not inside the archive subdirectory)
with a recognised extension, yet the substring test
`printed_folder in str(file_path)` makes the scan process nothing.
(ii) A file named `.pdf` has empty `splitext` extension — outside the
recognised set — yet the scan selects and processes it.  (iii) With the
same extension configured twice and printed files left in place, the scan
processes `a.pdf` twice, not exactly once. -/
theorem startup_scan_substring_exclusion_counterexample :
    extRecognized sampleConfig "C:/w/reprinted.pdf" = true ∧
    startsWithStr (fullPath sampleConfig "reprinted.pdf")
        (joinPath sampleConfig.watch_folder sampleConfig.printed_folder ++ "/") = false ∧
    strContains (fullPath sampleConfig "reprinted.pdf") sampleConfig.printed_folder = true ∧
    (process_existing_files sampleConfig (fun _ => sampleEnvOk)
        [FileEntry.mk "reprinted.pdf" true] ∅).2.1 = [] ∧
    extRecognized sampleConfig "C:/w/.pdf" = false ∧
    ((process_existing_files sampleConfig (fun _ => sampleEnvOk)
        [FileEntry.mk ".pdf" true] ∅).2.1).map Prod.fst = ["C:/w/.pdf"] ∧
    ((process_existing_files keepConfig (fun _ => FileEnv.mk readyProbes true sampleTs)
        [FileEntry.mk "a.pdf" true] ∅).2.1).map Prod.fst
      = ["C:/w/a.pdf", "C:/w/a.pdf"] := by
  decide

/-! ## C6 -/

/-- C6 (amended).  A live file-creation arrival whose path is currently
marked processed is skipped and never submitted to the print dispatcher;
the startup scan, by contrast, submits every entry passing its filter to
`process_file` without consulting the dedup set. -/
theorem live_arrival_dedup_skip (cfg : Config) (env : FileEnv) (path : String)
    (s : Finset String) (h : path ∈ s) :
    on_created cfg env false path s = (s, []) ∧
    ∀ (env2 : String → FileEnv) (ext : String) (e : FileEntry) (dir : List FileEntry),
      scanCond cfg ext e = true →
      (scanPass cfg env2 ext [e] s dir).2.1
        = [(fullPath cfg e.name,
            (process_file cfg (env2 (fullPath cfg e.name)) s (fullPath cfg e.name)).2)] := by
  constructor
  · unfold on_created
    by_cases hext : extRecognized cfg path = false
    · simp [hext]
    · simp [hext, h]
  · intro env2 ext e dir hcond
    rw [scanPass, if_pos hcond]
    rfl

/-- Witness for C6 (amended) at a concrete marked path. -/
theorem live_arrival_dedup_skip_witness :
    on_created sampleConfig sampleEnvOk false "C:/w/a.pdf" {"C:/w/a.pdf"}
      = ({"C:/w/a.pdf"}, []) ∧
    (scanPass sampleConfig (fun _ => sampleEnvOk) ".pdf"
        [FileEntry.mk "a.pdf" true] {"C:/w/a.pdf"} [FileEntry.mk "a.pdf" true]).2.1
      = [(fullPath sampleConfig "a.pdf",
          (process_file sampleConfig sampleEnvOk {"C:/w/a.pdf"}
            (fullPath sampleConfig "a.pdf")).2)] := by
  have h := live_arrival_dedup_skip sampleConfig sampleEnvOk "C:/w/a.pdf" {"C:/w/a.pdf"}
    (by decide)
  exact ⟨h.1, h.2 (fun _ => sampleEnvOk) ".pdf" (FileEntry.mk "a.pdf" true)
    [FileEntry.mk "a.pdf" true] (by decide)⟩

/-- Counterexample to C6 as stated: with the same extension configured
twice and printed files left in place, the startup scan marks `a.pdf`
processed on the first pass (the file stays in the directory) and
nevertheless submits it to the print dispatcher a second time — a scan
arrival for a path currently marked processed is not skipped. -/
theorem startup_scan_ignores_dedup_counterexample :
    (scanExts keepConfig (fun _ => FileEnv.mk readyProbes true sampleTs) [".pdf"]
        ∅ [FileEntry.mk "a.pdf" true]).1 = {"C:/w/a.pdf"} ∧
    ((process_existing_files keepConfig (fun _ => FileEnv.mk readyProbes true sampleTs)
        [FileEntry.mk "a.pdf" true] ∅).2.1).map Prod.fst = ["C:/w/a.pdf", "C:/w/a.pdf"] ∧
    List.count (PipeEvent.printCall "C:/w/a.pdf" true)
        (concatMap Prod.snd
          (process_existing_files keepConfig (fun _ => FileEnv.mk readyProbes true sampleTs)
            [FileEntry.mk "a.pdf" true] ∅).2.1) = 2 := by
  decide

/-! ## C7 -/

/-- C7 (amended).  A live file-creation arrival whose extension fails the
case-insensitive match against `file_extensions` triggers no action: the
event returns with the dedup set unchanged and an empty trace.  The
startup scan instead matches by case-insensitive name suffix (the glob
pattern `*ext`), and an entry matching no configured pattern is never
selected by it.  Both matchers are insensitive to the case of the
configured extensions and of the file name. -/
theorem unrecognized_extension_no_action (cfg : Config) (env : FileEnv) (isDir : Bool)
    (path : String) (s : Finset String) (h : extRecognized cfg path = false) :
    on_created cfg env isDir path s = (s, []) ∧
    (∀ (env2 : String → FileEnv) (entries : List FileEntry) (s2 : Finset String)
        (e : FileEntry),
      (∀ ext ∈ cfg.file_extensions, globMatch ext e.name = false) →
      fullPath cfg e.name ∉ ((process_existing_files cfg env2 entries s2).2.1).map Prod.fst) ∧
    (∀ p1 p2 : String, lowerStr (splitextExt p1) = lowerStr (splitextExt p2) →
      extRecognized cfg p1 = extRecognized cfg p2) ∧
    (∀ e1 e2 nm : String, lowerStr e1 = lowerStr e2 → globMatch e1 nm = globMatch e2 nm) ∧
    (∀ (ext n1 n2 : String), lowerStr n1 = lowerStr n2 →
      globMatch ext n1 = globMatch ext n2) := by
  refine ⟨?_, ?_, ?_, ?_, ?_⟩
  · unfold on_created
    by_cases hd : isDir <;> simp [hd, h]
  · intro env2 entries s2 e hnone hmem
    rcases List.mem_map.mp hmem with ⟨q, hq, heq⟩
    rcases scanExts_sound cfg env2 cfg.file_extensions s2 entries q hq with
      ⟨ext, hext, e2, _, hcond, hq1⟩
    unfold scanCond at hcond
    simp only [Bool.and_eq_true] at hcond
    have hnm := fullPath_inj cfg _ _ (hq1 ▸ heq)
    have hfalse := hnone ext hext
    rw [← hnm, hcond.1.2] at hfalse
    exact Bool.noConfusion hfalse
  · intro p1 p2 hlow
    unfold extRecognized splitextExt
    rw [show lowerStr (splitext p1).2 = lowerStr (splitext p2).2 from hlow]
  · intro e1 e2 nm hlow
    unfold globMatch
    rw [hlow]
  · intro ext n1 n2 hlow
    unfold globMatch
    rw [hlow]

/-- Witness for C7 (amended) at a `.txt` arrival under a `.pdf`-only
configuration. -/
theorem unrecognized_extension_no_action_witness :
    on_created sampleConfig sampleEnvOk false "C:/w/notes.txt" ∅ = (∅, []) ∧
    fullPath sampleConfig "notes.txt"
        ∉ ((process_existing_files sampleConfig (fun _ => sampleEnvOk)
            [FileEntry.mk "notes.txt" true, FileEntry.mk "a.pdf" true] ∅).2.1).map
          Prod.fst := by
  have h := unrecognized_extension_no_action sampleConfig sampleEnvOk false "C:/w/notes.txt"
    ∅ (by decide)
  exact ⟨h.1, h.2.1 (fun _ => sampleEnvOk)
    [FileEntry.mk "notes.txt" true, FileEntry.mk "a.pdf" true] ∅
    (FileEntry.mk "notes.txt" true) (by decide)⟩

/-- Counterexample to C7 as stated: under the default `.pdf`-only
configuration, a file named `.pdf` has empty `splitext` extension — which
does not match `file_extensions` under any case folding — yet the startup
scan's glob `*.pdf` selects it, and the pipeline probes and prints it. -/
theorem scan_prints_extensionless_dotfile_counterexample :
    extRecognized sampleConfig "C:/w/.pdf" = false ∧
    splitextExt "C:/w/.pdf" = "" ∧
    globMatch ".pdf" ".pdf" = true ∧
    ((process_existing_files sampleConfig (fun _ => sampleEnvOk)
        [FileEntry.mk ".pdf" true] ∅).2.1).map Prod.fst = ["C:/w/.pdf"] ∧
    PipeEvent.printCall "C:/w/.pdf" true
      ∈ concatMap Prod.snd
          (process_existing_files sampleConfig (fun _ => sampleEnvOk)
            [FileEntry.mk ".pdf" true] ∅).2.1 := by
  decide

/-! ## C8 -/

/-- C8.  Both print strategies are total boolean functions — every failure
the code can observe (missing file, missing Acrobat executable, empty
printer name with no resolvable system default, a raising
`Popen`/`SetDefaultPrinter`/`ShellExecute` launch) yields `false` rather
than an exception. -/
theorem print_dispatch_total :
    (∀ (env : AcrobatEnv) (fp pn ap : String),
      (print_pdf_acrobat env fp pn ap = true ∨ print_pdf_acrobat env fp pn ap = false) ∧
      (env.fileExists = false → print_pdf_acrobat env fp pn ap = false) ∧
      (env.acrobatIsFile = false → print_pdf_acrobat env fp pn ap = false) ∧
      (pn = "" → resolvePrinter pn env.defaultPrinter = none →
        print_pdf_acrobat env fp pn ap = false) ∧
      (env.popenRaises = true → print_pdf_acrobat env fp pn ap = false)) ∧
    (∀ (env : ShellEnv) (fp pn : String) (st : SysState),
      ((print_pdf_shellexecute env fp pn st).1 = true ∨
        (print_pdf_shellexecute env fp pn st).1 = false) ∧
      (env.fileExists = false → print_pdf_shellexecute env fp pn st = (false, st)) ∧
      (pn = "" → resolvePrinter pn st.defaultPrinter = none →
        (print_pdf_shellexecute env fp pn st).1 = false) ∧
      (env.setDefaultRaises = true → (print_pdf_shellexecute env fp pn st).1 = false) ∧
      (env.shellExecuteRaises = true → (print_pdf_shellexecute env fp pn st).1 = false)) := by
  constructor
  · intro env fp pn ap
    obtain ⟨fe, ai, dp, pr⟩ := env
    refine ⟨Bool.eq_false_or_eq_true _, ?_, ?_, ?_, ?_⟩
    · intro h1
      simp only at h1
      subst h1
      unfold print_pdf_acrobat
      simp
    · intro h1
      simp only at h1
      subst h1
      unfold print_pdf_acrobat
      cases fe <;> simp
    · intro hpn hres
      simp only at hres
      unfold print_pdf_acrobat
      cases fe <;> cases ai <;> simp [hres]
    · intro h1
      simp only at h1
      subst h1
      unfold print_pdf_acrobat
      cases fe <;> cases ai <;> simp <;> cases hr : resolvePrinter pn dp <;> simp
  · intro env fp pn st
    obtain ⟨fe, sdr, ser, rr⟩ := env
    refine ⟨Bool.eq_false_or_eq_true _, ?_, ?_, ?_, ?_⟩
    · intro h1
      simp only at h1
      subst h1
      unfold print_pdf_shellexecute
      simp
    · intro hpn hres
      unfold print_pdf_shellexecute
      cases fe <;> simp [hres]
    · intro h1
      simp only at h1
      subst h1
      unfold print_pdf_shellexecute
      cases fe <;> simp <;> cases hr : resolvePrinter pn st.defaultPrinter <;> simp
    · intro h1
      simp only at h1
      subst h1
      unfold print_pdf_shellexecute
      cases fe
      · simp
      · simp only
        cases hr : resolvePrinter pn st.defaultPrinter
        · simp
        · cases sdr <;> simp

/-- Witness for C8 at concrete failing environments. -/
theorem print_dispatch_total_witness :
    print_pdf_acrobat (AcrobatEnv.mk false true (some "HP") false)
        "C:/w/a.pdf" "" "C:/acro.exe" = false ∧
    print_pdf_acrobat (AcrobatEnv.mk true false (some "HP") false)
        "C:/w/a.pdf" "" "C:/acro.exe" = false ∧
    print_pdf_acrobat (AcrobatEnv.mk true true none false)
        "C:/w/a.pdf" "" "C:/acro.exe" = false ∧
    print_pdf_acrobat (AcrobatEnv.mk true true (some "HP") true)
        "C:/w/a.pdf" "" "C:/acro.exe" = false ∧
    (print_pdf_shellexecute (ShellEnv.mk true false true false) "C:/w/a.pdf" ""
        (SysState.mk (some "HP"))).1 = false := by
  refine ⟨?_, ?_, ?_, ?_, ?_⟩
  · exact (print_dispatch_total.1 (AcrobatEnv.mk false true (some "HP") false)
      "C:/w/a.pdf" "" "C:/acro.exe").2.1 rfl
  · exact (print_dispatch_total.1 (AcrobatEnv.mk true false (some "HP") false)
      "C:/w/a.pdf" "" "C:/acro.exe").2.2.1 rfl
  · exact (print_dispatch_total.1 (AcrobatEnv.mk true true none false)
      "C:/w/a.pdf" "" "C:/acro.exe").2.2.2.1 rfl (by decide)
  · exact (print_dispatch_total.1 (AcrobatEnv.mk true true (some "HP") true)
      "C:/w/a.pdf" "" "C:/acro.exe").2.2.2.2 rfl
  · exact (print_dispatch_total.2 (ShellEnv.mk true false true false) "C:/w/a.pdf" ""
      (SysState.mk (some "HP"))).2.2.2.2 rfl

/-! ## C9 -/

/-- C9.  Whenever a system default printer exists, the ShellExecute
strategy leaves it unchanged after the call — the `finally` block restores
it no matter whether the default-printer swap or the print action raised —
and a failure of the restoring call itself never changes the boolean result
returned to the caller. -/
theorem default_printer_restored :
    (∀ (fe sdr ser : Bool) (fp pn : String) (st : SysState) (o : String),
      st.defaultPrinter = some o → o ≠ "" →
      ((print_pdf_shellexecute (ShellEnv.mk fe sdr ser false) fp pn st).2).defaultPrinter
        = some o) ∧
    (∀ (fe sdr ser rr1 rr2 : Bool) (fp pn : String) (st : SysState),
      (print_pdf_shellexecute (ShellEnv.mk fe sdr ser rr1) fp pn st).1
        = (print_pdf_shellexecute (ShellEnv.mk fe sdr ser rr2) fp pn st).1) := by
  constructor
  · intro fe sdr ser fp pn st o hst ho
    obtain ⟨d⟩ := st
    simp only at hst
    subst hst
    unfold print_pdf_shellexecute
    cases fe
    · simp
    · simp only
      by_cases hpn : pn = ""
      · subst hpn
        simp [resolvePrinter, ho, finallyRestore]
        cases sdr <;> cases ser <;> simp
      · simp [resolvePrinter, hpn, finallyRestore]
        by_cases hop : o = pn
        · subst hop
          cases sdr <;> cases ser <;> simp
        · cases sdr <;> cases ser <;> simp [ho, hop]
  · intro fe sdr ser rr1 rr2 fp pn st
    unfold print_pdf_shellexecute
    cases fe
    · simp
    · simp only
      cases hr : resolvePrinter pn st.defaultPrinter
      · simp
      · cases sdr <;> cases ser <;> simp

/-- Witness for C9: a failing print action with a configured target still
restores the original default printer. -/
theorem default_printer_restored_witness :
    ((print_pdf_shellexecute (ShellEnv.mk true false true false) "C:/w/a.pdf" "Target"
        (SysState.mk (some "Original"))).2).defaultPrinter = some "Original" :=
  default_printer_restored.1 true false true "C:/w/a.pdf" "Target"
    (SysState.mk (some "Original")) "Original" rfl (by decide)

/-! ## Timestamp formatting lemmas (for C4) -/

theorem digitChar_inj_lt : ∀ a < 10, ∀ b < 10, digitChar a = digitChar b → a = b := by
  decide

/-- The format `%Y%m%d_%H%M%S` is injective on in-range timestamps: two different
seconds render to different strings. -/
theorem strftimeYmdHMS_inj (t1 t2 : Timestamp) (h1 : validTs t1) (h2 : validTs t2)
    (h : strftimeYmdHMS t1 = strftimeYmdHMS t2) : t1 = t2 := by
  obtain ⟨hy1, hmo1, hd1, hh1, hmi1, hs1⟩ := h1
  obtain ⟨hy2, hmo2, hd2, hh2, hmi2, hs2⟩ := h2
  have hd := congrArg String.data h
  simp only [strftimeYmdHMS, fmt4, fmt2, List.cons_append, List.nil_append,
    List.cons.injEq, and_true] at hd
  obtain ⟨e1, e2, e3, e4, e5, e6, e7, e8, -, e10, e11, e12, e13, e14, e15⟩ := hd
  have m10 : ∀ n : Nat, n % 10 < 10 := fun n => Nat.mod_lt n (by norm_num)
  have d1 := digitChar_inj_lt _ (m10 _) _ (m10 _) e1
  have d2 := digitChar_inj_lt _ (m10 _) _ (m10 _) e2
  have d3 := digitChar_inj_lt _ (m10 _) _ (m10 _) e3
  have d4 := digitChar_inj_lt _ (m10 _) _ (m10 _) e4
  have d5 := digitChar_inj_lt _ (m10 _) _ (m10 _) e5
  have d6 := digitChar_inj_lt _ (m10 _) _ (m10 _) e6
  have d7 := digitChar_inj_lt _ (m10 _) _ (m10 _) e7
  have d8 := digitChar_inj_lt _ (m10 _) _ (m10 _) e8
  have d10 := digitChar_inj_lt _ (m10 _) _ (m10 _) e10
  have d11 := digitChar_inj_lt _ (m10 _) _ (m10 _) e11
  have d12 := digitChar_inj_lt _ (m10 _) _ (m10 _) e12
  have d13 := digitChar_inj_lt _ (m10 _) _ (m10 _) e13
  have d14 := digitChar_inj_lt _ (m10 _) _ (m10 _) e14
  have d15 := digitChar_inj_lt _ (m10 _) _ (m10 _) e15
  have hy : t1.year = t2.year := by omega
  have hmo : t1.month = t2.month := by omega
  have hdd : t1.day = t2.day := by omega
  have hho : t1.hour = t2.hour := by omega
  have hmi : t1.minute = t2.minute := by omega
  have hse : t1.second = t2.second := by omega
  obtain ⟨y1, mo1, dd1, ho1, mi1, se1⟩ := t1
  obtain ⟨y2, mo2, dd2, ho2, mi2, se2⟩ := t2
  simp only [Timestamp.mk.injEq]
  exact ⟨hy, hmo, hdd, hho, hmi, hse⟩

/-! ## Path lemmas (for C4) -/

theorem afterLastSepL_sepFree_aux (l : List Char) :
    ∀ acc : List Char, (∀ c ∈ acc, isSep c = false) →
      ∀ c ∈ l.foldl (fun acc c => if isSep c then [] else acc ++ [c]) acc, isSep c = false := by
  induction l with
  | nil => intro acc hacc c hc; exact hacc c hc
  | cons a l ih =>
    intro acc hacc c hc
    rw [List.foldl_cons] at hc
    by_cases ha : isSep a
    · rw [if_pos ha] at hc
      exact ih [] (by simp) c hc
    · rw [if_neg ha] at hc
      refine ih (acc ++ [a]) ?_ c hc
      intro d hd
      rcases List.mem_append.mp hd with hmem | hmem
      · exact hacc d hmem
      · rw [List.mem_singleton.mp hmem]
        exact Bool.not_eq_true _ ▸ (by simpa using ha)

/-- A basename contains no path separators. -/
theorem afterLastSepL_sepFree (l : List Char) : ∀ c ∈ afterLastSepL l, isSep c = false :=
  afterLastSepL_sepFree_aux l [] (by simp)

/-- The basename of a path of the form `dir ++ "/" ++ rest` depends only on
`rest`. -/
theorem afterLastSepL_sep_cons (x y : List Char) :
    afterLastSepL (x ++ '/' :: y) = afterLastSepL y := by
  unfold afterLastSepL
  rw [List.foldl_append, List.foldl_cons]
  norm_num [isSep]

theorem afterLastSepL_sepFree_id_aux (m : List Char) (h : ∀ c ∈ m, isSep c = false) :
    ∀ acc : List Char,
      m.foldl (fun acc c => if isSep c then [] else acc ++ [c]) acc = acc ++ m := by
  induction m with
  | nil => intro acc; simp
  | cons a m ih =>
    intro acc
    rw [List.foldl_cons, if_neg (by simp [h a (by simp)])]
    rw [ih (fun c hc => h c (by simp [hc])) (acc ++ [a])]
    simp

/-- On separator-free input the basename fold is the identity. -/
theorem afterLastSepL_sepFree_id (m : List Char) (h : ∀ c ∈ m, isSep c = false) :
    afterLastSepL m = m := by
  unfold afterLastSepL
  rw [afterLastSepL_sepFree_id_aux m h []]
  simp

/-- Splitting recovers the string: root ++ ext equals the input. -/
theorem splitext_append (p : String) : (splitext p).1 ++ (splitext p).2 = p := by
  unfold splitext
  dsimp only
  split
  · split
    · apply String.ext
      rw [String.data_append]
      exact List.take_append_drop _ _
    · simp
  · simp

theorem splitext_data (p : String) :
    (splitext p).1.data ++ (splitext p).2.data = p.data := by
  rw [← String.data_append, splitext_append]

theorem splitext_fst_subset (p : String) : ∀ c ∈ (splitext p).1.data, c ∈ p.data := by
  intro c hc
  rw [← splitext_data p]
  exact List.mem_append_left _ hc

theorem splitext_snd_subset (p : String) : ∀ c ∈ (splitext p).2.data, c ∈ p.data := by
  intro c hc
  rw [← splitext_data p]
  exact List.mem_append_right _ hc

/-- The rendered timestamp contains no path separators. -/
theorem strftime_sepFree (t : Timestamp) :
    ∀ c ∈ (strftimeYmdHMS t).data, isSep c = false := by
  have key : ∀ m < 10, isSep (digitChar m) = false := by decide
  have key2 : ∀ n : Nat, isSep (digitChar (n % 10)) = false :=
    fun n => key _ (Nat.mod_lt n (by norm_num))
  intro c hc
  simp only [strftimeYmdHMS, fmt4, fmt2, List.cons_append, List.nil_append,
    List.mem_cons, List.not_mem_nil, or_false] at hc
  rcases hc with h | h | h | h | h | h | h | h | h | h | h | h | h | h | h <;>
    subst h <;> first | exact key2 _ | decide

/-- The rendered timestamp has exactly 15 characters. -/
theorem strftime_length (t : Timestamp) : (strftimeYmdHMS t).data.length = 15 := by
  simp [strftimeYmdHMS, fmt4, fmt2]

theorem slash_data : ("/" : String).data = ['/'] := rfl

theorem underscore_data : ("_" : String).data = ['_'] := rfl

theorem mk_data (s : String) : String.mk s.data = s := rfl

/-- The archived name produced by the move branch: `name_<timestamp><ext>`
directly inside the archive directory. -/
theorem movedPath_basename (cfg : Config) (t : Timestamp) (p : String) :
    basename (movedPath cfg t p)
      = (splitext (basename p)).1 ++ "_" ++ strftimeYmdHMS t
          ++ (splitext (basename p)).2 := by
  have hsf : ∀ c ∈ ((splitext (basename p)).1 ++ "_" ++ strftimeYmdHMS t
      ++ (splitext (basename p)).2).data, isSep c = false := by
    intro c hc
    rw [String.data_append, String.data_append, String.data_append] at hc
    rcases List.mem_append.mp hc with hc1 | hcE
    · rcases List.mem_append.mp hc1 with hc2 | hcT
      · rcases List.mem_append.mp hc2 with hcN | hcU
        · exact afterLastSepL_sepFree _ _ (splitext_fst_subset _ _ hcN)
        · rw [underscore_data, List.mem_singleton] at hcU
          subst hcU
          decide
      · exact strftime_sepFree t _ hcT
    · exact afterLastSepL_sepFree _ _ (splitext_snd_subset _ _ hcE)
  have hd : (joinPath (joinPath cfg.watch_folder cfg.printed_folder)
      ((splitext (basename p)).1 ++ "_" ++ strftimeYmdHMS t
        ++ (splitext (basename p)).2)).data
      = (joinPath cfg.watch_folder cfg.printed_folder).data
        ++ '/' :: ((splitext (basename p)).1 ++ "_" ++ strftimeYmdHMS t
          ++ (splitext (basename p)).2).data := by
    simp [joinPath, String.data_append, slash_data, List.append_assoc]
  conv_lhs => rw [movedPath, show ∀ x : String, basename x
    = String.mk (afterLastSepL x.data) from fun _ => rfl]
  rw [hd, afterLastSepL_sep_cons, afterLastSepL_sepFree_id _ hsf, mk_data]

/-- The move target is never the original path: its basename is 16
characters longer. -/
theorem movedPath_ne (cfg : Config) (t : Timestamp) (p : String) :
    movedPath cfg t p ≠ p := by
  intro h
  have hb := congrArg basename h
  rw [movedPath_basename] at hb
  have hlen := congrArg (fun s : String => s.data.length) hb
  simp only [String.data_append, List.length_append, strftime_length,
    underscore_data, List.length_singleton] at hlen
  have hbp : (basename p).data.length
      = (splitext (basename p)).1.data.length + (splitext (basename p)).2.data.length := by
    conv_lhs => rw [← splitext_append (basename p)]
    rw [String.data_append, List.length_append]
  omega

/-- Two files with the same original base name archived at different
(in-range) seconds get distinct archived paths. -/
theorem movedPath_time_inj (cfg : Config) (t1 t2 : Timestamp) (p1 p2 : String)
    (hb : basename p1 = basename p2) (v1 : validTs t1) (v2 : validTs t2)
    (hne : t1 ≠ t2) : movedPath cfg t1 p1 ≠ movedPath cfg t2 p2 := by
  intro h
  apply hne
  apply strftimeYmdHMS_inj t1 t2 v1 v2
  unfold movedPath at h
  rw [← hb] at h
  unfold joinPath at h
  have h2 := string_append_left_cancel _ _ _ h
  have h3 := congrArg String.data h2
  rw [String.data_append, String.data_append, String.data_append,
    String.data_append] at h3
  apply String.ext
  exact List.append_cancel_left (List.append_cancel_right h3)

/-! ## C4 -/

/-- C4.  After a successful print the resolver deletes the file when
`delete_after_print` is set; otherwise, when `move_after_print` is set, it
creates the archive directory under the watch folder and moves the file to
`<watch_folder>/<printed_folder>/<name>_<YYYYMMDD_HHMMSS><ext>`, so the
file is gone from its original path, exists at the archived path, and two
files with the same original base name printed at different seconds get
distinct archived names; with neither flag set the filesystem is left
untouched. -/
theorem post_print_resolver_policy (cfg : Config) (t t2 : Timestamp) (p p2 : String)
    (fs : FsState) (v1 : validTs t) (v2 : validTs t2) :
    (cfg.delete_after_print = true →
      handle_after_print cfg t p = [FsOp.remove p] ∧
      p ∉ (applyFs (handle_after_print cfg t p) fs).files) ∧
    (cfg.delete_after_print = false → cfg.move_after_print = true →
      handle_after_print cfg t p
          = [FsOp.mkdirs (joinPath cfg.watch_folder cfg.printed_folder),
             FsOp.move p (movedPath cfg t p)] ∧
      movedPath cfg t p
          = joinPath (joinPath cfg.watch_folder cfg.printed_folder)
              ((splitext (basename p)).1 ++ "_" ++ strftimeYmdHMS t
                ++ (splitext (basename p)).2) ∧
      joinPath cfg.watch_folder cfg.printed_folder
          ∈ (applyFs (handle_after_print cfg t p) fs).dirs ∧
      movedPath cfg t p ∈ (applyFs (handle_after_print cfg t p) fs).files ∧
      p ∉ (applyFs (handle_after_print cfg t p) fs).files ∧
      (basename p = basename p2 → t ≠ t2 → movedPath cfg t p ≠ movedPath cfg t2 p2)) ∧
    (cfg.delete_after_print = false → cfg.move_after_print = false →
      handle_after_print cfg t p = [] ∧ applyFs (handle_after_print cfg t p) fs = fs) := by
  refine ⟨?_, ?_, ?_⟩
  · intro hdel
    have he : handle_after_print cfg t p = [FsOp.remove p] := by
      unfold handle_after_print
      rw [if_pos hdel]
    refine ⟨he, ?_⟩
    rw [he]
    show p ∉ (applyFsOp fs (FsOp.remove p)).files
    exact Finset.not_mem_erase p fs.files
  · intro hdel hmv
    have he : handle_after_print cfg t p
        = [FsOp.mkdirs (joinPath cfg.watch_folder cfg.printed_folder),
           FsOp.move p (movedPath cfg t p)] := by
      unfold handle_after_print
      rw [hdel, hmv]
      simp
    refine ⟨he, rfl, ?_, ?_, ?_, ?_⟩
    · rw [he]
      simp [applyFs, applyFsOp]
    · rw [he]
      simp [applyFs, applyFsOp]
    · rw [he]
      simp only [applyFs, List.foldl, applyFsOp, Finset.mem_insert]
      rintro (hcontra | hcontra)
      · exact movedPath_ne cfg t p hcontra.symm
      · exact Finset.not_mem_erase p _ hcontra
    · intro hbase hnet
      exact movedPath_time_inj cfg t t2 p p2 hbase v1 v2 hnet
  · intro hdel hmv
    have he : handle_after_print cfg t p = [] := by
      unfold handle_after_print
      rw [hdel, hmv]
      simp
    exact ⟨he, by rw [he]; rfl⟩

/-- Witness for C4: a delete run, a move run with its archived location,
and two distinct archived names for the same base name one second apart. -/
theorem post_print_resolver_policy_witness :
    handle_after_print deleteConfig sampleTs "C:/w/a.pdf" = [FsOp.remove "C:/w/a.pdf"] ∧
    "C:/w/a.pdf" ∉ (applyFs (handle_after_print deleteConfig sampleTs "C:/w/a.pdf")
        sampleFs).files ∧
    movedPath sampleConfig sampleTs "C:/w/a.pdf"
        ∈ (applyFs (handle_after_print sampleConfig sampleTs "C:/w/a.pdf") sampleFs).files ∧
    "C:/w/a.pdf" ∉ (applyFs (handle_after_print sampleConfig sampleTs "C:/w/a.pdf")
        sampleFs).files ∧
    joinPath sampleConfig.watch_folder sampleConfig.printed_folder
        ∈ (applyFs (handle_after_print sampleConfig sampleTs "C:/w/a.pdf") sampleFs).dirs ∧
    movedPath sampleConfig sampleTs "C:/w/a.pdf"
        ≠ movedPath sampleConfig sampleTs2 "C:/w/a.pdf" := by
  have hdel := (post_print_resolver_policy deleteConfig sampleTs sampleTs2 "C:/w/a.pdf"
    "C:/w/a.pdf" sampleFs (by decide) (by decide)).1 rfl
  have hmv := (post_print_resolver_policy sampleConfig sampleTs sampleTs2 "C:/w/a.pdf"
    "C:/w/a.pdf" sampleFs (by decide) (by decide)).2.1 rfl rfl
  exact ⟨hdel.1, hdel.2, hmv.2.2.2.1, hmv.2.2.2.2.1,
    hmv.2.2.1, hmv.2.2.2.2.2 rfl (by decide)⟩
